import Mathlib

/-!
Shallow embedding of the match engine in src/portfolio/game.py.

Representation conventions:
* A chip is its kind plus a mutable face flag; Python moves chip objects,
  the embedding moves chip values.
* A board stack is a Lean list written TOP-FIRST: the Python list grows with
  `append` at its end and `stack[-1]` is the top, so Python `append c` is
  `c :: stack`, Python `pop()` is `List.tail`, Python `stack[-1]` is
  `List.head?`.
* The board is the Python list of the 4 stacks in position order (the
  `board` arguments below); Python list indexing (including negative
  indices) is modelled by `pyIdx`.
* Hands and decks keep the Python element order (front of the Lean list is
  the front of the Python list); `Deck.draw` takes from the front, and
  `Hand.put` extends at the back.
* Python `assert` failures and `IndexError` are modelled by `Except`.
-/

inductive Kind where
  | mover
  | stacker
  | drawer
  | binder
deriving DecidableEq, Repr

structure Chip where
  kind : Kind
  is_hidden : Bool
deriving DecidableEq, Repr

inductive Violation where
  | assertFail
  | indexError
deriving DecidableEq, Repr

/-- Python list indexing semantics: a non-negative index must be below the
length, a negative index `i` means `length + i` when that lands in range;
anything else raises `IndexError` (`none`). -/
def pyIdx (n : Nat) (i : Int) : Option Nat :=
  if 0 ≤ i ∧ i < (n : Int) then some i.toNat
  else if -(n : Int) ≤ i ∧ i < 0 then some ((n : Int) + i).toNat
  else none

/-- Replace the `n`-th element of a list by `f` of it (no-op out of range). -/
def listModify (f : α → α) : Nat → List α → List α
  | _, [] => []
  | 0, x :: xs => f x :: xs
  | n + 1, x :: xs => x :: listModify f n xs

/-- Appending a chip to the stack at Python index `i` of the board, with
Python index semantics (top-first stacks, so append is cons). -/
def pyAppendAt (board : List (List Chip)) (i : Int) (c : Chip) :
    Option (List (List Chip)) :=
  match pyIdx board.length i with
  | some n => some (listModify (fun st => c :: st) n board)
  | none => none

/-- The `neighbors_map` dict of game.py with its `.get(src, [])` default. -/
def neighbors_map (i : Nat) : List Nat :=
  match i with
  | 0 => [1, 2]
  | 1 => [0, 3]
  | 2 => [0, 3]
  | 3 => [1, 2]
  | _ => []

/-!  Board cleanup (`Game.cleanup_board`). -/

/-- The loop `while stack and not stack[-1].is_hidden: stack.pop()`
(top-first representation: the Python top is the list head). -/
def pop_face_up : List Chip → List Chip
  | [] => []
  | c :: rest => if c.is_hidden then c :: rest else pop_face_up rest

/-- `if stack: stack[-1].is_hidden = False`. -/
def flip_top : List Chip → List Chip
  | [] => []
  | c :: rest => { c with is_hidden := false } :: rest

/-- Per-stack body of `Game.cleanup_board`. -/
def cleanup_stack (s : List Chip) : List Chip :=
  flip_top (pop_face_up s)

/-- `Game.cleanup_board`: every stack is cleaned in place. -/
def cleanup_board (board : List (List Chip)) : List (List Chip) :=
  board.map cleanup_stack

/-!  Scoring (`Game.calculate_score`). -/

/-- `holdings_counts.get(kind, 0)`: the dict built in `calculate_score`
counts the player's holdings chips per kind. -/
def holdings_count (holdings : List Chip) (k : Kind) : Nat :=
  holdings.countP (fun c => c.kind == k)

/-- Body of the per-position `enumerate` loop of
`Game.calculate_score`: the contribution of one stack, given its index. -/
def stack_contribution (board : List (List Chip)) (holdings : List Chip)
    (i : Nat) (stack : List Chip) : Nat :=
  match stack with
  | [] => 0
  | top :: _ =>
    if top.is_hidden then 0
    else
      let chip_score :=
        if top.kind == Kind.stacker then stack.length
        else if top.kind == Kind.binder then
          1 + ((neighbors_map i).filter (fun n =>
            match board.getD n [] with
            | [] => false
            | t :: _ => !t.is_hidden)).length
        else 1
      chip_score * holdings_count holdings top.kind

/-- The `enumerate` loop of `Game.calculate_score`, accumulating from
index `i`. -/
def score_go (board : List (List Chip)) (holdings : List Chip) :
    Nat → List (List Chip) → Nat
  | _, [] => 0
  | i, stack :: rest =>
    stack_contribution board holdings i stack + score_go board holdings (i + 1) rest

/-- `Game.calculate_score` for one player: their score over the shared board,
weighted by their holdings. -/
def calculate_score (board : List (List Chip)) (holdings : List Chip) : Nat :=
  score_go board holdings 0 board

/-- The winner assignment at the end of `Game.calculate_score`:
`false` is player 0, `true` is player 1, `none` is a tie. -/
def game_winner (score0 score1 : Nat) : Option Bool :=
  if score0 > score1 then some false
  else if score1 > score0 then some true
  else none

/-!  Match winner (`Match._check_match_winner`).  Players are `Bool`:
`false` is `players[0]` ("Alice"), `true` is `players[1]` ("Bob"); a game's
winner is an `Option Bool` (`none` is a tie). -/

/-- Number of games in the list won by player `p`. -/
def wins_of (games : List (Option Bool)) (p : Bool) : Nat :=
  games.count (some p)

/-- Number of tied games in the list (the `else` branch of the counting
loop: a winner that is neither player's name). -/
def ties_of (games : List (Option Bool)) : Nat :=
  games.count none

/-- `Match._check_match_winner` over the list of completed games' winners. -/
def check_match_winner (games : List (Option Bool)) : Option Bool :=
  let wins0 := wins_of games false
  let wins1 := wins_of games true
  let ties := ties_of games
  if wins0 ≥ 2 then some false
  else if wins1 ≥ 2 then some true
  else if wins0 = 1 ∧ ties ≥ 1 then some false
  else if wins1 = 1 ∧ ties ≥ 1 then some true
  else if games.length = 3 then
    if wins0 > wins1 then some false
    else if wins1 > wins0 then some true
    else none
  else none

/-- The guard at line 469 of game.py: between Game 2 and Game 3 the holdings
revision is offered when `not game1.winner`. -/
def offers_revision_before_game3 (game1_winner : Option Bool) : Bool :=
  game1_winner.isNone

/-!  Game state and move execution (`Game.execute_move`, `Game.run_game`). -/

structure PState where
  hand : List Chip
  deck : List Chip
  holdings : List Chip
deriving DecidableEq, Repr

/-- `Game` state: the shared board, both players, `active_player_idx`
(`false` is index 0), the `players_checked` pair and the finished flag. -/
structure GameState where
  board : List (List Chip)
  p0 : PState
  p1 : PState
  active : Bool
  checked0 : Bool
  checked1 : Bool
  finished : Bool
deriving DecidableEq, Repr

def GameState.activeP (s : GameState) : PState :=
  if s.active then s.p1 else s.p0

def GameState.setActiveP (s : GameState) (p : PState) : GameState :=
  if s.active then { s with p1 := p } else { s with p0 := p }

def GameState.checkedOf (s : GameState) (b : Bool) : Bool :=
  if b then s.checked1 else s.checked0

/-- `self.players_checked[self.active_player_idx] = True` for player `b`. -/
def GameState.setCheckedOf (s : GameState) (b : Bool) : GameState :=
  if b then { s with checked1 := true } else { s with checked0 := true }

inductive MoveType where
  | DISCARD
  | CHECK
  | PLAY_FACE_DOWN
  | PLAY_FACE_UP
deriving DecidableEq, Repr

/-- A `Move`: the Python `chip` field defaults to `None` and `target_pos`
defaults to `-1`. -/
structure Move where
  move_type : MoveType
  chip : Option Chip := none
  target_pos : Int := -1
deriving DecidableEq, Repr

/-- The shared body of `PLAY_FACE_DOWN` / `PLAY_FACE_UP` execution:
`assert move.chip in player.hand.chips; remove; set face; append to
board[target_pos]` (Python `in`/`remove` on a chip without `__eq__` locate
one occurrence of the chip; the embedding erases the first equal value). -/
def place_chip (s : GameState) (c : Chip) (pos : Int) (hidden : Bool) :
    Except Violation GameState :=
  if c ∈ s.activeP.hand then
    let p := s.activeP
    let s₁ := s.setActiveP { p with hand := p.hand.erase c }
    match pyAppendAt s₁.board pos { c with is_hidden := hidden } with
    | some board₁ => .ok { s₁ with board := board₁ }
    | none => .error .indexError
  else .error .assertFail

/-- The mover ("Yellow") chained effect, lines 311-319 of game.py: assert
`0 <= src < 4 and 0 <= dst < 4 and board[src]`, assert
`dst in neighbors_map.get(src, [])`, then pop the top of `src` and append
it to `dst`. -/
def mover_followup_exec (board : List (List Chip)) (src dst : Int) :
    Except Violation (List (List Chip)) :=
  if 0 ≤ src ∧ src < 4 ∧ 0 ≤ dst ∧ dst < 4 ∧ board.getD src.toNat [] ≠ [] then
    if dst.toNat ∈ neighbors_map src.toNat then
      match board.getD src.toNat [] with
      | [] => .error .assertFail
      | top :: rest =>
        .ok (listModify (fun st => top :: st) dst.toNat
              (listModify (fun _ => rest) src.toNat board))
    else .error .assertFail
  else .error .assertFail

/-- `Deck.draw`: `assert count <= len(self.chips)`, take the first `count`
chips. -/
def deck_draw (count : Nat) (chips : List Chip) :
    Except Violation (List Chip × List Chip) :=
  if count ≤ chips.length then .ok (chips.take count, chips.drop count)
  else .error .assertFail

/-- The drawer ("Red") chained effect, lines 321-334 of game.py: skip when
the deck is empty; otherwise draw one chip into the hand
(`player.draw_hand(1)`), ask the strategy for a follow-up `(chip, pos)`,
assert the chip is in hand, remove it, hide it and append it to
`board[pos]`. -/
def drawer_followup_exec (dfu : GameState → Chip × Int) (s : GameState) :
    Except Violation GameState :=
  match s.activeP.deck with
  | [] => .ok s
  | d :: rest =>
    let p := s.activeP
    let s₂ := s.setActiveP { p with hand := p.hand ++ [d], deck := rest }
    let fu := dfu s₂
    if fu.1 ∈ s₂.activeP.hand then
      let p₂ := s₂.activeP
      let s₃ := s₂.setActiveP { p₂ with hand := p₂.hand.erase fu.1 }
      match pyAppendAt s₃.board fu.2 { fu.1 with is_hidden := true } with
      | some board₁ => .ok { s₃ with board := board₁ }
      | none => .error .indexError
    else .error .assertFail

/-- `Game.execute_move`.  The strategy callbacks for the two chained
effects are passed as functions of the engine state (Python calls
`player.get_mover_followup(self.board)` / `player.get_drawer_followup`
on the strategy object, which sees the board and its own player state). -/
def execute_move (mfu : GameState → Int × Int) (dfu : GameState → Chip × Int)
    (mv : Move) (s : GameState) : Except Violation GameState :=
  match mv.move_type with
  | .CHECK => .ok (s.setCheckedOf s.active)
  | .DISCARD =>
    match mv.chip with
    | none => .error .assertFail
    | some c =>
      if c ∈ s.activeP.hand then
        .ok (s.setActiveP { s.activeP with hand := s.activeP.hand.erase c })
      else .error .assertFail
  | .PLAY_FACE_DOWN =>
    match mv.chip with
    | none => .error .assertFail
    | some c => place_chip s c mv.target_pos true
  | .PLAY_FACE_UP =>
    match mv.chip with
    | none => .error .assertFail
    | some c =>
      match place_chip s c mv.target_pos false with
      | .error e => .error e
      | .ok s₁ =>
        match c.kind with
        | .mover =>
          let fu := mfu s₁
          match mover_followup_exec s₁.board fu.1 fu.2 with
          | .ok board₁ => .ok { s₁ with board := board₁ }
          | .error e => .error e
        | .drawer => drawer_followup_exec dfu s₁
        | _ => .ok s₁

/-- The strategy capability set consumed by the turn loop. -/
structure Strategy where
  get_move : GameState → Move
  get_mover_followup : GameState → Int × Int
  get_drawer_followup : GameState → Chip × Int

/-- `Game.play_turn`: if the active player has checked, no move is
requested; otherwise one move is requested and executed. -/
def play_turn (strat : Strategy) (s : GameState) : Except Violation GameState :=
  if s.checkedOf s.active then .ok s
  else execute_move strat.get_mover_followup strat.get_drawer_followup
        (strat.get_move s) s

/-- One iteration of the `while` loop of `Game.run_game`: play a turn; if
both players have checked, finish; otherwise switch to the other player
exactly when they have not checked. -/
def step (strat : Strategy) (s : GameState) : Except Violation GameState :=
  match play_turn strat s with
  | .error e => .error e
  | .ok s₁ =>
    if s₁.checked0 && s₁.checked1 then .ok { s₁ with finished := true }
    else if s₁.checkedOf (!s₁.active) then .ok s₁
    else .ok { s₁ with active := !s₁.active }

/-- `Game.run_game` with explicit fuel: `.ok none` means the loop was still
running when the fuel ran out. -/
def run_game (strat : Strategy) : Nat → GameState → Except Violation (Option GameState)
  | 0, _ => .ok none
  | fuel + 1, s =>
    if s.finished then .ok (some s)
    else
      match step strat s with
      | .error e => .error e
      | .ok s₁ => run_game strat fuel s₁

/-!  Draft (`Player.draft_3_from_6` and `Match.draft`). -/

/-- `Player.draft_3_from_6` acting on the chooser's and the other player's
decks: the strategy splits the batch into `(keep, give)`; the code then puts
`give` into the chooser's own deck and hands `keep` to the other player
(`other_players[0]._draft_accept_3(keep)`, which asserts size 3 and puts
them into that deck).  Returns `(chooser's deck, other's deck)`. -/
def draft_3_from_6 (split : List Chip → List Chip × List Chip)
    (batch : List Chip) (selfDeck otherDeck : List Chip) :
    Except Violation (List Chip × List Chip) :=
  if batch.length = 6 ∧ selfDeck.length + 3 ≤ 18 then
    let kg := split batch
    if kg.1.length = 3 ∧ kg.2.length = 3 then
      .ok (selfDeck ++ kg.2, otherDeck ++ kg.1)
    else .error .assertFail
  else .error .assertFail

/-!  Holdings revision (`PlayerRandom.consider_update_holdings`,
`Player.draw_holdings`). -/

/-- `Player.draw_holdings`: shuffle the deck (the shuffle is passed in as a
permutation-producing function) and move its first 3 chips to holdings
(`Holdings.put` asserts size 3).  Returns `(deck, holdings)`. -/
def draw_holdings (shuffle : List Chip → List Chip) (deck : List Chip) :
    Except Violation (List Chip × List Chip) :=
  let shuffled := shuffle deck
  match deck_draw 3 shuffled with
  | .ok taken => if taken.1.length = 3 then .ok (taken.2, taken.1) else .error .assertFail
  | .error e => .error e

/-- `PlayerRandom.consider_update_holdings` with the random decision and the
shuffle made explicit: when revising, all holdings chips are appended to the
deck, holdings are cleared, and `draw_holdings` refills them.
Returns `(deck, holdings)`. -/
def consider_update_holdings (revise : Bool) (shuffle : List Chip → List Chip)
    (deck holdings : List Chip) : Except Violation (List Chip × List Chip) :=
  if revise then draw_holdings shuffle (deck ++ holdings)
  else .ok (deck, holdings)

/-!  Decidable success test on the `Except` results. -/

def exOk {α : Type} : Except Violation α → Bool
  | .ok _ => true
  | .error _ => false

/-!  Spec-side definitions (written from the specification's words, for
comparison against the code-derived definitions above). -/

/-- The 4-cycle adjacency relation of the spec, on positions 0..3:
0 and 1, 0 and 2, 1 and 3, 2 and 3 (symmetric). -/
def cycle4_adjacent (i j : Fin 4) : Prop :=
  ((i : Nat), (j : Nat)) ∈
    [(0, 1), (1, 0), (0, 2), (2, 0), (1, 3), (3, 1), (2, 3), (3, 2)]

instance (i j : Fin 4) : Decidable (cycle4_adjacent i j) := by
  unfold cycle4_adjacent
  infer_instance

/-- The same 4-cycle relation read on raw integer positions (anything
outside [0,3] is adjacent to nothing). -/
def cycle4_adjacentI (i j : Int) : Prop :=
  (i, j) ∈
    ([(0, 1), (1, 0), (0, 2), (2, 0), (1, 3), (3, 1), (2, 3), (3, 2)] :
      List (Int × Int))

instance (i j : Int) : Decidable (cycle4_adjacentI i j) := by
  unfold cycle4_adjacentI
  infer_instance

/-- Spec: a position counts for adjacency credit when its stack is
non-empty with a face-up top. -/
def face_up_top (s : List Chip) : Bool :=
  match s.head? with
  | none => false
  | some c => !c.is_hidden

/-- Spec: the value of a face-up top chip at position `i` — stack height
for a stacker, 1 plus the number of 4-cycle-adjacent positions that are
non-empty and face-up on top for a binder, 1 otherwise. -/
def spec_value (stacksF : Fin 4 → List Chip) (i : Fin 4) : Nat :=
  match (stacksF i).head? with
  | none => 0
  | some top =>
    if top.kind = Kind.stacker then (stacksF i).length
    else if top.kind = Kind.binder then
      1 + (Finset.univ.filter
            (fun j => cycle4_adjacent i j ∧ face_up_top (stacksF j) = true)).card
    else 1

/-- Spec: the game score — the sum over the 4 positions whose stack is
non-empty with a face-up top of the position's value multiplied by the
player's holdings count of the top chip's kind; empty stacks and hidden
tops contribute zero. -/
def spec_score (stacksF : Fin 4 → List Chip) (holdings : List Chip) : Nat :=
  Finset.univ.sum (fun i : Fin 4 =>
    match (stacksF i).head? with
    | none => 0
    | some top =>
      if top.is_hidden then 0
      else spec_value stacksF i * (holdings.filter (fun c => c.kind = top.kind)).length)

/-!  Legality contracts of the strategy interface (spec section 6), and the
termination measure for `Game.run_game`. -/

/-- The move contract: a move may reference only chips in the acting
player's hand, and the two play kinds need a position in [0,3]. -/
def legal_move (s : GameState) (mv : Move) : Prop :=
  match mv.move_type with
  | .CHECK => True
  | .DISCARD => ∃ c, mv.chip = some c ∧ c ∈ s.activeP.hand
  | .PLAY_FACE_DOWN =>
    (∃ c, mv.chip = some c ∧ c ∈ s.activeP.hand) ∧
      0 ≤ mv.target_pos ∧ mv.target_pos < 4
  | .PLAY_FACE_UP =>
    (∃ c, mv.chip = some c ∧ c ∈ s.activeP.hand) ∧
      0 ≤ mv.target_pos ∧ mv.target_pos < 4

/-- The mover follow-up contract: source in range and non-empty,
destination in range and adjacent to the source. -/
def legal_mover_fu (s : GameState) (fu : Int × Int) : Prop :=
  0 ≤ fu.1 ∧ fu.1 < 4 ∧ 0 ≤ fu.2 ∧ fu.2 < 4 ∧
    s.board.getD fu.1.toNat [] ≠ [] ∧ fu.2.toNat ∈ neighbors_map fu.1.toNat

/-- The drawer follow-up contract: the chip must be in the hand and the
position in [0,3]. -/
def legal_drawer_fu (s : GameState) (fu : Chip × Int) : Prop :=
  fu.1 ∈ s.activeP.hand ∧ 0 ≤ fu.2 ∧ fu.2 < 4

/-- A strategy whose decisions always satisfy the move contracts, at every
state where the engine could consult it (the mover follow-up is consulted
only when some stack is non-empty — the chip just played is on the board —
and the drawer follow-up only when the hand is non-empty, right after the
draw). -/
def ContractStrategy (strat : Strategy) : Prop :=
  (∀ s : GameState, s.board.length = 4 → legal_move s (strat.get_move s)) ∧
  (∀ s : GameState, s.board.length = 4 → (∃ i, i < 4 ∧ s.board.getD i [] ≠ []) →
      legal_mover_fu s (strat.get_mover_followup s)) ∧
  (∀ s : GameState, s.activeP.hand ≠ [] →
      legal_drawer_fu s (strat.get_drawer_followup s))

/-- Total number of chips in both players' hands and decks. -/
def chipsTotal (s : GameState) : Nat :=
  s.p0.hand.length + s.p0.deck.length + s.p1.hand.length + s.p1.deck.length

/-- Number of players who have not checked yet. -/
def uncheckedCount (s : GameState) : Nat :=
  (if s.checked0 then 0 else 1) + (if s.checked1 then 0 else 1)

/-- Termination measure for the turn loop: every executed non-Check move
removes at least one chip from the acting player's hand+deck, and every
Check lowers the unchecked count. -/
def gameMeasure (s : GameState) : Nat :=
  chipsTotal s + uncheckedCount s

/-- States reachable from `s` by successful loop iterations of
`Game.run_game`. -/
inductive ReachesFrom (strat : Strategy) : GameState → GameState → Prop
  | refl (s : GameState) : ReachesFrom strat s s
  | tail {s t u : GameState} : ReachesFrom strat s t → t.finished = false →
      step strat t = .ok u → ReachesFrom strat s u

/-!  A concrete contract-abiding strategy (used to instantiate the
termination theorem). -/

/-- Always check; when asked for a mover follow-up, move from the first
non-empty stack to its first neighbor; when asked for a drawer follow-up,
play the first chip of the hand on position 0. -/
def checkStrategy : Strategy where
  get_move := fun _ => { move_type := .CHECK }
  get_mover_followup := fun s =>
    match (List.range 4).find? (fun j => !(s.board.getD j []).isEmpty) with
    | some j => ((j : Int), ((neighbors_map j).headD 0 : Int))
    | none => (0, 1)
  get_drawer_followup := fun s =>
    (s.activeP.hand.headD { kind := Kind.mover, is_hidden := false }, 0)

/-- True exactly when a fueled run ended in a final state (no violation,
fuel not exhausted). -/
def finishedOk : Except Violation (Option GameState) → Bool
  | .ok (some _) => true
  | _ => false

/-- The player who is not active. -/
def GameState.inactiveP (s : GameState) : PState :=
  if s.active then s.p0 else s.p1

/-- A player's hand-plus-deck chip count. -/
def playChips (p : PState) : Nat :=
  p.hand.length + p.deck.length

/-!  Helper lemmas. -/

theorem listModify_length (f : α → α) (n : Nat) (l : List α) :
    (listModify f n l).length = l.length := by
  induction l generalizing n with
  | nil => cases n <;> rfl
  | cons x xs ih => cases n <;> simp [listModify, ih]

theorem getD_listModify_self (f : α → α) (n : Nat) (l : List α) (d : α)
    (h : n < l.length) : (listModify f n l).getD n d = f (l.getD n d) := by
  induction l generalizing n with
  | nil => simp at h
  | cons x xs ih =>
    cases n with
    | zero => simp [listModify]
    | succ m => simpa [listModify] using ih m (by simpa using h)

theorem getD_listModify_ne (f : α → α) (m n : Nat) (l : List α) (d : α)
    (h : m ≠ n) : (listModify f n l).getD m d = l.getD m d := by
  induction l generalizing m n with
  | nil => cases n <;> rfl
  | cons x xs ih =>
    cases n with
    | zero => cases m with
      | zero => exact absurd rfl h
      | succ k => simp [listModify]
    | succ n₁ => cases m with
      | zero => simp [listModify]
      | succ m₁ => simpa [listModify] using ih m₁ n₁ (by omega)

theorem pyIdx_nonneg (n : Nat) (i : Int) (h0 : 0 ≤ i) (h1 : i < (n : Int)) :
    pyIdx n i = some i.toNat := by
  unfold pyIdx
  rw [if_pos ⟨h0, h1⟩]

theorem pyIdx_negIdx (n : Nat) (i : Int) (h0 : -(n : Int) ≤ i) (h1 : i < 0) :
    pyIdx n i = some ((n : Int) + i).toNat := by
  unfold pyIdx
  rw [if_neg (by omega), if_pos ⟨h0, h1⟩]

theorem pyIdx_oob (n : Nat) (i : Int) (h : i < -(n : Int) ∨ (n : Int) ≤ i) :
    pyIdx n i = none := by
  unfold pyIdx
  rw [if_neg (by omega), if_neg (by omega)]

theorem setActiveP_board (s : GameState) (p : PState) :
    (s.setActiveP p).board = s.board := by
  unfold GameState.setActiveP
  split <;> rfl

theorem setActiveP_active (s : GameState) (p : PState) :
    (s.setActiveP p).active = s.active := by
  unfold GameState.setActiveP
  split <;> rfl

theorem setActiveP_checked0 (s : GameState) (p : PState) :
    (s.setActiveP p).checked0 = s.checked0 := by
  unfold GameState.setActiveP
  split <;> rfl

theorem setActiveP_checked1 (s : GameState) (p : PState) :
    (s.setActiveP p).checked1 = s.checked1 := by
  unfold GameState.setActiveP
  split <;> rfl

theorem setActiveP_finished (s : GameState) (p : PState) :
    (s.setActiveP p).finished = s.finished := by
  unfold GameState.setActiveP
  split <;> rfl

theorem activeP_setActiveP (s : GameState) (p : PState) :
    (s.setActiveP p).activeP = p := by
  unfold GameState.setActiveP GameState.activeP
  by_cases h : s.active = true <;> simp [h]

theorem checkedOf_setActiveP (s : GameState) (p : PState) (b : Bool) :
    (s.setActiveP p).checkedOf b = s.checkedOf b := by
  unfold GameState.checkedOf
  rw [setActiveP_checked0, setActiveP_checked1]

theorem setCheckedOf_board (s : GameState) (b : Bool) :
    (s.setCheckedOf b).board = s.board := by
  unfold GameState.setCheckedOf
  split <;> rfl

theorem setCheckedOf_active (s : GameState) (b : Bool) :
    (s.setCheckedOf b).active = s.active := by
  unfold GameState.setCheckedOf
  split <;> rfl

theorem setCheckedOf_finished (s : GameState) (b : Bool) :
    (s.setCheckedOf b).finished = s.finished := by
  unfold GameState.setCheckedOf
  split <;> rfl

theorem setCheckedOf_p0 (s : GameState) (b : Bool) :
    (s.setCheckedOf b).p0 = s.p0 := by
  unfold GameState.setCheckedOf
  split <;> rfl

theorem setCheckedOf_p1 (s : GameState) (b : Bool) :
    (s.setCheckedOf b).p1 = s.p1 := by
  unfold GameState.setCheckedOf
  split <;> rfl

theorem checkedOf_setCheckedOf (s : GameState) (b c : Bool) :
    (s.setCheckedOf b).checkedOf c = (if c = b then true else s.checkedOf c) := by
  cases b <;> cases c <;> simp [GameState.setCheckedOf, GameState.checkedOf]

/-!  C9: board cleanup. -/

theorem pop_face_up_eq_dropWhile (s : List Chip) :
    pop_face_up s = s.dropWhile (fun c => !c.is_hidden) := by
  induction s with
  | nil => rfl
  | cons c rest ih =>
    by_cases h : c.is_hidden = true <;>
      simp [pop_face_up, List.dropWhile_cons, h, ih]

theorem head_dropWhile_hidden (s : List Chip) :
    (s.dropWhile (fun c => !c.is_hidden)).head?.all (fun c => c.is_hidden) = true := by
  induction s with
  | nil => rfl
  | cons c rest ih =>
    by_cases h : c.is_hidden = true <;> simp [List.dropWhile_cons, h, ih]

/-- C9: board cleanup removes, for every stack, exactly the maximal run of
face-up chips from the top, then flips the new top (if any) face-up leaving
the chips beneath unchanged; cleanup of 4 empty stacks changes nothing. -/
theorem C9_board_cleanup (s0 s1 s2 s3 s : List Chip) :
    s.takeWhile (fun c => !c.is_hidden) ++ s.dropWhile (fun c => !c.is_hidden) = s
    ∧ (s.takeWhile (fun c => !c.is_hidden)).all (fun c => !c.is_hidden) = true
    ∧ (s.dropWhile (fun c => !c.is_hidden)).head?.all (fun c => c.is_hidden) = true
    ∧ cleanup_stack s =
        (match s.dropWhile (fun c => !c.is_hidden) with
         | [] => []
         | hd :: tl => { hd with is_hidden := false } :: tl)
    ∧ cleanup_board [s0, s1, s2, s3] =
        [cleanup_stack s0, cleanup_stack s1, cleanup_stack s2, cleanup_stack s3]
    ∧ cleanup_board [[], [], [], []] = [[], [], [], []] := by
  refine ⟨List.takeWhile_append_dropWhile _ _, ?_, head_dropWhile_hidden s, ?_, rfl, rfl⟩
  · rw [List.all_eq_true]
    intro c hc
    simpa using List.mem_takeWhile_imp hc
  · unfold cleanup_stack
    rw [pop_face_up_eq_dropWhile]
    cases s.dropWhile (fun c => !c.is_hidden) <;> rfl

/-!  C4: the match-winner rule. -/

theorem wins_ties_sum (games : List (Option Bool)) :
    wins_of games false + wins_of games true + ties_of games = games.length := by
  induction games with
  | nil => rfl
  | cons g rest ih =>
    rcases g with _ | b
    · simp [wins_of, ties_of, List.count_cons] at *
      omega
    · cases b <;>
        · simp [wins_of, ties_of, List.count_cons] at *
          omega

/-- C4: the match winner computed from the completed games follows the
stated rule — at least 2 wins takes the match; exactly 1 win plus a tie
takes the match (player 0 checked first when both qualify); after 3 games,
strictly more wins takes the match and equal wins is a tie; and the match
(tie, Alice wins, Bob wins) is won by Alice (player 0). -/
theorem C4_match_winner_rule (games : List (Option Bool)) (p : Bool)
    (hlen : games.length ≤ 3) :
    (2 ≤ wins_of games p → check_match_winner games = some p)
    ∧ (wins_of games false = 1 ∧ 1 ≤ ties_of games →
        check_match_winner games = some false)
    ∧ (wins_of games true = 1 ∧ 1 ≤ ties_of games ∧ wins_of games false ≠ 1 →
        check_match_winner games = some true)
    ∧ (games.length = 3 → wins_of games false < 2 → wins_of games true < 2 →
        ¬(wins_of games false = 1 ∧ 1 ≤ ties_of games) →
        ¬(wins_of games true = 1 ∧ 1 ≤ ties_of games) →
        check_match_winner games =
          (if wins_of games true < wins_of games false then some false
           else if wins_of games false < wins_of games true then some true
           else none))
    ∧ check_match_winner [none, some false, some true] = some false := by
  have hsum := wins_ties_sum games
  refine ⟨?_, ?_, ?_, ?_, by decide⟩
  · intro h
    cases p <;>
      · simp only [check_match_winner]
        split_ifs <;> first | rfl | (exfalso; omega)
  · intro h
    simp only [check_match_winner]
    split_ifs <;> first | rfl | (exfalso; omega)
  · intro h
    simp only [check_match_winner]
    split_ifs <;> first | rfl | (exfalso; omega)
  · intro h3 h₀ h₁ hn₀ hn₁
    simp only [check_match_winner]
    split_ifs <;> first | rfl | (exfalso; omega)

/-- C4 witness: the example match (tie, Alice wins, Bob wins) evaluated
through the rule. -/
theorem C4_match_winner_rule_witness :
    check_match_winner [none, some false, some true] = some false :=
  (C4_match_winner_rule [none, some false, some true] false (by decide)).2.2.2.2

/-!  C2: holdings revision between Game 2 and Game 3. -/

/-- C2: between Game 2 and Game 3 (a point reached only when no match
winner exists after two games) the revision offer — coded as "Game 1 had no
winner" — coincides with "the just-finished Game 2 had no winner"; and a
revising player returns the 3 holdings chips to the deck, reshuffles, and
draws 3 fresh chips into holdings, while a declining player keeps both
unchanged. -/
theorem C2_holdings_revision (w1 w2 : Option Bool) (deck holdings : List Chip)
    (shuffle : List Chip → List Chip)
    (hmatch : check_match_winner [w1, w2] = none)
    (hlen : holdings.length = 3)
    (hperm : (shuffle (deck ++ holdings)).Perm (deck ++ holdings)) :
    (offers_revision_before_game3 w1 = true ↔ w2 = none)
    ∧ consider_update_holdings true shuffle deck holdings =
        .ok ((shuffle (deck ++ holdings)).drop 3, (shuffle (deck ++ holdings)).take 3)
    ∧ ((shuffle (deck ++ holdings)).take 3).length = 3
    ∧ ((shuffle (deck ++ holdings)).take 3 ++
        (shuffle (deck ++ holdings)).drop 3).Perm (deck ++ holdings)
    ∧ consider_update_holdings false shuffle deck holdings = .ok (deck, holdings) := by
  have hslen : (shuffle (deck ++ holdings)).length = deck.length + 3 := by
    rw [hperm.length_eq, List.length_append, hlen]
  refine ⟨?_, ?_, ?_, ?_, rfl⟩
  · revert hmatch
    rcases w1 with _ | b1 <;> rcases w2 with _ | b2 <;>
      first
        | decide
        | (cases b1 <;> first | decide | (cases b2 <;> decide))
        | (cases b2 <;> decide)
  · simp only [consider_update_holdings, draw_holdings, deck_draw, if_true]
    rw [if_pos (by omega)]
    simp only []
    rw [if_pos (by simp [List.length_take]; omega)]
  · simp [List.length_take]
    omega
  · rw [List.take_append_drop]
    exact hperm

/-- C2 witness: a concrete tied pair of games and a concrete revision. -/
theorem C2_holdings_revision_witness :
    consider_update_holdings true id []
        [({ kind := Kind.mover, is_hidden := false } : Chip),
         { kind := Kind.stacker, is_hidden := false },
         { kind := Kind.drawer, is_hidden := false }] =
      .ok ([],
        [({ kind := Kind.mover, is_hidden := false } : Chip),
         { kind := Kind.stacker, is_hidden := false },
         { kind := Kind.drawer, is_hidden := false }]) ∧
    (offers_revision_before_game3 none = true ↔ (none : Option Bool) = none) := by
  refine ⟨?_, ?_⟩
  · exact (C2_holdings_revision none none []
      [({ kind := Kind.mover, is_hidden := false } : Chip),
       { kind := Kind.stacker, is_hidden := false },
       { kind := Kind.drawer, is_hidden := false }] id (by decide) (by decide)
      (List.Perm.refl _)).2.1
  · exact (C2_holdings_revision none none []
      [({ kind := Kind.mover, is_hidden := false } : Chip),
       { kind := Kind.stacker, is_hidden := false },
       { kind := Kind.drawer, is_hidden := false }] id (by decide) (by decide)
      (List.Perm.refl _)).1

/-!  C1: draft keep/give routing. -/

/-- C1: evaluating `Player.draft_3_from_6` at a concrete batch shows that
the 3 chips the chooser elects to KEEP (here the movers, the first 3 of the
batch) land in the OTHER player's deck, while the 3 GIVEN chips (the
stackers) land in the chooser's own deck — the opposite of the claim (and
of the code's own `keep`/`give` variable names). -/
theorem C1_draft_keep_routed_to_other :
    draft_3_from_6 (fun batch => (batch.take 3, batch.drop 3))
      [{ kind := Kind.mover, is_hidden := false },
       { kind := Kind.mover, is_hidden := false },
       { kind := Kind.mover, is_hidden := false },
       { kind := Kind.stacker, is_hidden := false },
       { kind := Kind.stacker, is_hidden := false },
       { kind := Kind.stacker, is_hidden := false }] [] []
    = .ok ([{ kind := Kind.stacker, is_hidden := false },
            { kind := Kind.stacker, is_hidden := false },
            { kind := Kind.stacker, is_hidden := false }],
           [{ kind := Kind.mover, is_hidden := false },
            { kind := Kind.mover, is_hidden := false },
            { kind := Kind.mover, is_hidden := false }]) := by
  rfl

/-!  C3: out-of-range play positions. -/

theorem pyAppendAt_oob (board : List (List Chip)) (i : Int) (c : Chip)
    (h : i < -(board.length : Int) ∨ (board.length : Int) ≤ i) :
    pyAppendAt board i c = none := by
  unfold pyAppendAt
  rw [pyIdx_oob _ _ h]

theorem pyAppendAt_negIdx (board : List (List Chip)) (i : Int) (c : Chip)
    (h0 : -(board.length : Int) ≤ i) (h1 : i < 0) :
    pyAppendAt board i c =
      some (listModify (fun st => c :: st) ((board.length : Int) + i).toNat board) := by
  unfold pyAppendAt
  rw [pyIdx_negIdx _ _ h0 h1]

theorem pyAppendAt_nonneg (board : List (List Chip)) (i : Int) (c : Chip)
    (h0 : 0 ≤ i) (h1 : i < (board.length : Int)) :
    pyAppendAt board i c =
      some (listModify (fun st => c :: st) i.toNat board) := by
  unfold pyAppendAt
  rw [pyIdx_nonneg _ _ h0 h1]

/-- C3 counterexample: a `PlayFaceDown` at target position `-1` (outside
[0,3]) does NOT fail — Python negative indexing silently places the chip on
stack 3. -/
theorem C3_counterexample_neg_pos_silently_placed :
    execute_move (fun _ => ((0 : Int), (0 : Int)))
      (fun _ => ({ kind := Kind.stacker, is_hidden := false }, (0 : Int)))
      { move_type := .PLAY_FACE_DOWN,
        chip := some { kind := Kind.stacker, is_hidden := false },
        target_pos := -1 }
      { board := [[], [], [], []],
        p0 := { hand := [{ kind := Kind.stacker, is_hidden := false }],
                deck := [], holdings := [] },
        p1 := { hand := [], deck := [], holdings := [] },
        active := false, checked0 := false, checked1 := false, finished := false }
    = .ok
      { board := [[], [], [], [{ kind := Kind.stacker, is_hidden := true }]],
        p0 := { hand := [], deck := [], holdings := [] },
        p1 := { hand := [], deck := [], holdings := [] },
        active := false, checked0 := false, checked1 := false, finished := false } := by
  rfl

/-- C3 (amended): a play position greater than 3 or less than -4 fails
immediately (IndexError) for PlayFaceDown, PlayFaceUp and the drawer
follow-up play, and the chip is never placed; but a position in [-4,-1]
does not fail — it silently places the chip onto stack (4 + position),
by Python negative indexing. -/
theorem C3_amended_out_of_range_positions (mfu : GameState → Int × Int)
    (dfu : GameState → Chip × Int) (s : GameState) (c : Chip) (pos pos₂ : Int)
    (hlen : s.board.length = 4)
    (hout : pos < -4 ∨ 3 < pos)
    (hneg : -4 ≤ pos₂ ∧ pos₂ < 0)
    (hc : c ∈ s.activeP.hand)
    (hdeck : s.activeP.deck ≠ []) :
    exOk (execute_move mfu dfu
      { move_type := .PLAY_FACE_DOWN, chip := some c, target_pos := pos } s) = false
    ∧ exOk (execute_move mfu dfu
      { move_type := .PLAY_FACE_UP, chip := some c, target_pos := pos } s) = false
    ∧ exOk (drawer_followup_exec (fun _ => (c, pos)) s) = false
    ∧ execute_move mfu dfu
        { move_type := .PLAY_FACE_DOWN, chip := some c, target_pos := pos₂ } s
      = .ok { s.setActiveP { s.activeP with hand := s.activeP.hand.erase c } with
              board := listModify (fun st => { c with is_hidden := true } :: st)
                        ((4 : Int) + pos₂).toNat s.board } := by
  have hA : ∀ c' : Chip, pyAppendAt s.board pos c' = none := fun c' =>
    pyAppendAt_oob _ _ _ (by rw [hlen]; omega)
  refine ⟨?_, ?_, ?_, ?_⟩
  · simp only [execute_move, place_chip, if_pos hc, setActiveP_board, hA, exOk]
  · simp only [execute_move, place_chip, if_pos hc, setActiveP_board, hA, exOk]
  · cases hd : s.activeP.deck with
    | nil => exact absurd hd hdeck
    | cons d rest =>
      simp only [drawer_followup_exec, hd]
      by_cases hmem :
          c ∈ ((s.setActiveP
            { s.activeP with hand := s.activeP.hand ++ [d], deck := rest }).activeP).hand
      · rw [if_pos hmem]
        simp only [setActiveP_board, hA, exOk]
      · rw [if_neg hmem]
        simp only [exOk]
  · have hD : pyAppendAt s.board pos₂ { c with is_hidden := true } =
        some (listModify (fun st => { c with is_hidden := true } :: st)
          ((s.board.length : Int) + pos₂).toNat s.board) :=
      pyAppendAt_negIdx _ _ _ (by rw [hlen]; omega) hneg.2
    simp only [execute_move, place_chip, if_pos hc, setActiveP_board, hD, hlen,
      Nat.cast_ofNat]

/-- C3 witness: concrete out-of-range failures at position 4. -/
theorem C3_amended_out_of_range_positions_witness :
    exOk (execute_move (fun _ => ((0 : Int), (0 : Int)))
      (fun _ => (({ kind := Kind.stacker, is_hidden := false } : Chip), (0 : Int)))
      { move_type := .PLAY_FACE_DOWN,
        chip := some { kind := Kind.stacker, is_hidden := false },
        target_pos := 4 }
      { board := [[], [], [], []],
        p0 := { hand := [{ kind := Kind.stacker, is_hidden := false }],
                deck := [{ kind := Kind.mover, is_hidden := false }], holdings := [] },
        p1 := { hand := [], deck := [], holdings := [] },
        active := false, checked0 := false, checked1 := false,
        finished := false }) = false
    ∧ exOk (drawer_followup_exec
        (fun _ => (({ kind := Kind.stacker, is_hidden := false } : Chip), (4 : Int)))
        { board := [[], [], [], []],
          p0 := { hand := [{ kind := Kind.stacker, is_hidden := false }],
                  deck := [{ kind := Kind.mover, is_hidden := false }], holdings := [] },
          p1 := { hand := [], deck := [], holdings := [] },
          active := false, checked0 := false, checked1 := false,
          finished := false }) = false := by
  refine ⟨?_, ?_⟩
  · exact (C3_amended_out_of_range_positions _ _ _ _ 4 (-1) (by decide)
      (by omega) (by omega) (by decide) (by decide)).1
  · exact (C3_amended_out_of_range_positions (fun _ => ((0 : Int), (0 : Int)))
      (fun _ => (({ kind := Kind.stacker, is_hidden := false } : Chip), (0 : Int)))
      _ _ 4 (-1) (by decide) (by omega) (by omega) (by decide) (by decide)).2.2.1

/-!  C7: the mover chained effect. -/

theorem cycle4I_iff (src dst : Int) :
    cycle4_adjacentI src dst ↔
      (0 ≤ src ∧ src < 4 ∧ 0 ≤ dst ∧ dst < 4 ∧
        dst.toNat ∈ neighbors_map src.toNat) := by
  constructor
  · intro h
    simp only [cycle4_adjacentI, List.mem_cons, List.not_mem_nil, or_false,
      Prod.mk.injEq] at h
    rcases h with ⟨h1, h2⟩ | ⟨h1, h2⟩ | ⟨h1, h2⟩ | ⟨h1, h2⟩ | ⟨h1, h2⟩ |
      ⟨h1, h2⟩ | ⟨h1, h2⟩ | ⟨h1, h2⟩ <;> subst h1 <;> subst h2 <;> decide
  · rintro ⟨h1, h2, h3, h4, h5⟩
    interval_cases src <;> interval_cases dst <;> revert h5 <;> decide

/-- C7: the mover chained effect fails exactly when the source stack is
empty or the destination is not 4-cycle-adjacent to the source; on success
the top chip of the source is popped and pushed onto the destination with
its face state unchanged; and source 0, destination 3 is always rejected. -/
theorem C7_mover_followup (board : List (List Chip)) (src dst : Int) :
    (exOk (mover_followup_exec board src dst) = true ↔
      (cycle4_adjacentI src dst ∧ board.getD src.toNat [] ≠ []))
    ∧ mover_followup_exec board src dst =
        (if cycle4_adjacentI src dst then
          match board.getD src.toNat [] with
          | [] => .error .assertFail
          | top :: rest =>
            .ok (listModify (fun st => top :: st) dst.toNat
                  (listModify (fun _ => rest) src.toNat board))
        else .error .assertFail)
    ∧ mover_followup_exec board 0 3 = .error .assertFail := by
  have key : ∀ a b : Int, mover_followup_exec board a b =
      (if cycle4_adjacentI a b then
        match board.getD a.toNat [] with
        | [] => .error .assertFail
        | top :: rest =>
          .ok (listModify (fun st => top :: st) b.toNat
                (listModify (fun _ => rest) a.toNat board))
      else .error .assertFail) := by
    intro a b
    by_cases hadj : cycle4_adjacentI a b
    · obtain ⟨h1, h2, h3, h4, h5⟩ := (cycle4I_iff a b).mp hadj
      rw [if_pos hadj]
      by_cases hs : board.getD a.toNat [] = []
      · unfold mover_followup_exec
        rw [if_neg (fun hcon => hcon.2.2.2.2 hs), hs]
      · unfold mover_followup_exec
        rw [if_pos ⟨h1, h2, h3, h4, hs⟩, if_pos h5]
    · rw [if_neg hadj]
      unfold mover_followup_exec
      by_cases houter : 0 ≤ a ∧ a < 4 ∧ 0 ≤ b ∧ b < 4 ∧ board.getD a.toNat [] ≠ []
      · rw [if_pos houter, if_neg (fun hmem => hadj ((cycle4I_iff a b).mpr
          ⟨houter.1, houter.2.1, houter.2.2.1, houter.2.2.2.1, hmem⟩))]
      · rw [if_neg houter]
  refine ⟨?_, key src dst, ?_⟩
  · rw [key src dst]
    by_cases hadj : cycle4_adjacentI src dst
    · rw [if_pos hadj]
      cases hg : board.getD src.toNat [] <;> simp [exOk, hadj, hg]
    · simp [if_neg hadj, exOk, hadj]
  · rw [key 0 3, if_neg (by decide)]

/-- C7 witness: a concrete rejection of source 0, destination 3 on a board
with a chip on stack 0, and a concrete successful adjacent move. -/
theorem C7_mover_followup_witness :
    mover_followup_exec
      [[{ kind := Kind.binder, is_hidden := false }], [], [], []] 0 3
      = .error .assertFail
    ∧ exOk (mover_followup_exec
        [[{ kind := Kind.binder, is_hidden := false }], [], [], []] 0 1) = true := by
  refine ⟨?_, ?_⟩
  · exact (C7_mover_followup
      [[{ kind := Kind.binder, is_hidden := false }], [], [], []] 0 3).2.2
  · exact ((C7_mover_followup
      [[{ kind := Kind.binder, is_hidden := false }], [], [], []] 0 1).1).mpr
      (by decide)

/-!  C8: the drawer chained effect. -/

/-- C8: playing a drawer chip face-up first places it, then: with an empty
deck the chained effect is skipped entirely (state unchanged, no draw, the
follow-up callback is never consulted); with a non-empty deck exactly one
chip moves from the front of the deck into the hand, and the follow-up chip
(which must be in the hand) is removed, hidden, and pushed onto the chosen
target stack. -/
theorem C8_drawer_effect (mfu : GameState → Int × Int)
    (dfu : GameState → Chip × Int) (s t : GameState) (c : Chip) (pos : Int)
    (hk : c.kind = Kind.drawer)
    (hc : c ∈ s.activeP.hand)
    (hpos : 0 ≤ pos ∧ pos < 4)
    (hlen : s.board.length = 4)
    (hlen_t : t.board.length = 4) :
    execute_move mfu dfu { move_type := .PLAY_FACE_UP, chip := some c, target_pos := pos } s
      = drawer_followup_exec dfu
          { s.setActiveP { s.activeP with hand := s.activeP.hand.erase c } with
            board := listModify (fun st => { c with is_hidden := false } :: st)
                      pos.toNat s.board }
    ∧ (t.activeP.deck = [] →
        ∀ dfu' : GameState → Chip × Int, drawer_followup_exec dfu' t = .ok t)
    ∧ (∀ (d : Chip) (rest : List Chip) (t₂ : GameState),
        t.activeP.deck = d :: rest →
        t₂ = t.setActiveP { t.activeP with hand := t.activeP.hand ++ [d], deck := rest } →
        (dfu t₂).1 ∈ t.activeP.hand ++ [d] →
        0 ≤ (dfu t₂).2 → (dfu t₂).2 < 4 →
        drawer_followup_exec dfu t =
          .ok { t₂.setActiveP
                  { t₂.activeP with hand := (t.activeP.hand ++ [d]).erase (dfu t₂).1 } with
                board := listModify
                          (fun st => { (dfu t₂).1 with is_hidden := true } :: st)
                          (dfu t₂).2.toNat t.board }) := by
  refine ⟨?_, ?_, ?_⟩
  · simp only [execute_move, place_chip, if_pos hc, setActiveP_board]
    rw [pyAppendAt_nonneg _ _ _ hpos.1 (by rw [hlen]; exact hpos.2), hk]
  · intro hdeck dfu'
    simp only [drawer_followup_exec, hdeck]
  · intro d rest t₂ hdeck ht₂ hmem h0 h4
    subst ht₂
    simp only [drawer_followup_exec, hdeck, activeP_setActiveP, setActiveP_board]
    rw [if_pos hmem]
    rw [pyAppendAt_nonneg _ _ _ h0 (by rw [hlen_t]; exact h4)]

/-- C8 witness: a concrete drawer play with an empty deck (effect skipped,
state unchanged) and a concrete non-empty-deck follow-up placement. -/
theorem C8_drawer_effect_witness :
    drawer_followup_exec
      (fun _ => (({ kind := Kind.drawer, is_hidden := false } : Chip), (0 : Int)))
      { board := [[{ kind := Kind.drawer, is_hidden := false }], [], [], []],
        p0 := { hand := [], deck := [], holdings := [] },
        p1 := { hand := [], deck := [], holdings := [] },
        active := false, checked0 := false, checked1 := false, finished := false }
    = .ok
      { board := [[{ kind := Kind.drawer, is_hidden := false }], [], [], []],
        p0 := { hand := [], deck := [], holdings := [] },
        p1 := { hand := [], deck := [], holdings := [] },
        active := false, checked0 := false, checked1 := false, finished := false }
    ∧ drawer_followup_exec
      (fun _ => (({ kind := Kind.drawer, is_hidden := false } : Chip), (0 : Int)))
      { board := [[], [], [], []],
        p0 := { hand := [], deck := [{ kind := Kind.drawer, is_hidden := false }],
                holdings := [] },
        p1 := { hand := [], deck := [], holdings := [] },
        active := false, checked0 := false, checked1 := false, finished := false }
    = .ok
      { board := [[{ kind := Kind.drawer, is_hidden := true }], [], [], []],
        p0 := { hand := [], deck := [], holdings := [] },
        p1 := { hand := [], deck := [], holdings := [] },
        active := false, checked0 := false, checked1 := false, finished := false } := by
  refine ⟨?_, ?_⟩
  · exact (C8_drawer_effect (fun _ => ((0 : Int), (0 : Int)))
      (fun _ => (({ kind := Kind.drawer, is_hidden := false } : Chip), (0 : Int)))
      { board := [[], [], [], []],
        p0 := { hand := [{ kind := Kind.drawer, is_hidden := false }], deck := [],
                holdings := [] },
        p1 := { hand := [], deck := [], holdings := [] },
        active := false, checked0 := false, checked1 := false, finished := false }
      { board := [[{ kind := Kind.drawer, is_hidden := false }], [], [], []],
        p0 := { hand := [], deck := [], holdings := [] },
        p1 := { hand := [], deck := [], holdings := [] },
        active := false, checked0 := false, checked1 := false, finished := false }
      { kind := Kind.drawer, is_hidden := false } 0
      rfl (by decide) (by decide) (by decide) (by decide)).2.1 rfl _
  · exact (C8_drawer_effect (fun _ => ((0 : Int), (0 : Int)))
      (fun _ => (({ kind := Kind.drawer, is_hidden := false } : Chip), (0 : Int)))
      { board := [[], [], [], []],
        p0 := { hand := [{ kind := Kind.drawer, is_hidden := false }], deck := [],
                holdings := [] },
        p1 := { hand := [], deck := [], holdings := [] },
        active := false, checked0 := false, checked1 := false, finished := false }
      { board := [[], [], [], []],
        p0 := { hand := [], deck := [{ kind := Kind.drawer, is_hidden := false }],
                holdings := [] },
        p1 := { hand := [], deck := [], holdings := [] },
        active := false, checked0 := false, checked1 := false, finished := false }
      { kind := Kind.drawer, is_hidden := false } 0
      rfl (by decide) (by decide) (by decide) (by decide)).2.2
      { kind := Kind.drawer, is_hidden := false } []
      { board := [[], [], [], []],
        p0 := { hand := [{ kind := Kind.drawer, is_hidden := false }], deck := [],
                holdings := [] },
        p1 := { hand := [], deck := [], holdings := [] },
        active := false, checked0 := false, checked1 := false, finished := false }
      rfl (by decide) (by decide) (by decide) (by decide)

/-!  C5: scoring. -/

theorem list_top_bool (l : List Chip) :
    (match l with | [] => false | t :: _ => !t.is_hidden) = face_up_top l := by
  cases l <;> rfl

theorem holdings_count_filter (h : List Chip) (k : Kind) :
    holdings_count h k = (h.filter (fun c => c.kind = k)).length := by
  rw [holdings_count, List.countP_eq_length_filter]
  rfl

theorem binder_count_at (s0 s1 s2 s3 : List Chip) (i : Fin 4) :
    ((neighbors_map i.val).filter (fun n =>
        match ([s0, s1, s2, s3] : List (List Chip)).getD n [] with
        | [] => false
        | t :: _ => !t.is_hidden)).length =
      (Finset.univ.filter
        (fun j => cycle4_adjacent i j ∧ face_up_top (![s0, s1, s2, s3] j) = true)).card := by
  fin_cases i <;>
    rw [Finset.card_filter, Fin.sum_univ_four] <;>
    simp only [neighbors_map, List.filter_cons, List.filter_nil,
      List.getD_cons_zero, List.getD_cons_succ, list_top_bool] <;>
    by_cases q0 : face_up_top s0 = true <;>
    by_cases q1 : face_up_top s1 = true <;>
    by_cases q2 : face_up_top s2 = true <;>
    by_cases q3 : face_up_top s3 = true <;>
    simp [q0, q1, q2, q3, cycle4_adjacent] <;>
    decide

theorem vec4_at0 (a b c d : List Chip) : (![a, b, c, d]) 0 = a := rfl

theorem vec4_at1 (a b c d : List Chip) : (![a, b, c, d]) 1 = b := rfl

theorem vec4_at2 (a b c d : List Chip) : (![a, b, c, d]) 2 = c := rfl

theorem vec4_at3 (a b c d : List Chip) : (![a, b, c, d]) 3 = d := rfl

theorem stack_contribution_eq_spec (s0 s1 s2 s3 h : List Chip) (i : Fin 4) :
    stack_contribution [s0, s1, s2, s3] h i.val (![s0, s1, s2, s3] i) =
      (match (![s0, s1, s2, s3] i).head? with
       | none => 0
       | some top =>
         if top.is_hidden then 0
         else spec_value ![s0, s1, s2, s3] i *
           (h.filter (fun c => c.kind = top.kind)).length) := by
  fin_cases i
  · cases s0 with
    | nil => rfl
    | cons top rest =>
      by_cases hh : top.is_hidden = true
      · simp [stack_contribution, hh, vec4_at0]
      · cases hk : top.kind <;>
          simp [stack_contribution, spec_value, hh, hk, vec4_at0,
            holdings_count_filter]
        left
        simp only [← List.getD_eq_getElem?_getD]
        exact binder_count_at _ _ _ _ 0
  · cases s1 with
    | nil => rfl
    | cons top rest =>
      by_cases hh : top.is_hidden = true
      · simp [stack_contribution, hh, vec4_at1]
      · cases hk : top.kind <;>
          simp [stack_contribution, spec_value, hh, hk, vec4_at1,
            holdings_count_filter]
        left
        simp only [← List.getD_eq_getElem?_getD]
        exact binder_count_at _ _ _ _ 1
  · cases s2 with
    | nil => rfl
    | cons top rest =>
      by_cases hh : top.is_hidden = true
      · simp [stack_contribution, hh, vec4_at2]
      · cases hk : top.kind <;>
          simp [stack_contribution, spec_value, hh, hk, vec4_at2,
            holdings_count_filter]
        left
        simp only [← List.getD_eq_getElem?_getD]
        exact binder_count_at _ _ _ _ 2
  · cases s3 with
    | nil => rfl
    | cons top rest =>
      by_cases hh : top.is_hidden = true
      · simp [stack_contribution, hh, vec4_at3]
      · cases hk : top.kind <;>
          simp [stack_contribution, spec_value, hh, hk, vec4_at3,
            holdings_count_filter]
        left
        simp only [← List.getD_eq_getElem?_getD]
        exact binder_count_at _ _ _ _ 3

/-- C5: for every board and holdings, the game score equals the spec's sum
over the 4 positions (stack height for stackers, 1 + face-up 4-cycle
neighbours for binders, 1 otherwise, each times the holdings count of the
top chip's kind; empty stacks and hidden tops contribute zero), and the
per-game winner is the strictly-higher score, ties giving no winner. -/
theorem C5_scoring (s0 s1 s2 s3 holdings : List Chip) (a b : Nat) :
    calculate_score [s0, s1, s2, s3] holdings = spec_score ![s0, s1, s2, s3] holdings
    ∧ (game_winner a b = some false ↔ b < a)
    ∧ (game_winner a b = some true ↔ a < b)
    ∧ (game_winner a b = none ↔ a = b) := by
  refine ⟨?_, ?_, ?_, ?_⟩
  · have e0 := stack_contribution_eq_spec s0 s1 s2 s3 holdings 0
    have e1 := stack_contribution_eq_spec s0 s1 s2 s3 holdings 1
    have e2 := stack_contribution_eq_spec s0 s1 s2 s3 holdings 2
    have e3 := stack_contribution_eq_spec s0 s1 s2 s3 holdings 3
    calc calculate_score [s0, s1, s2, s3] holdings
        = stack_contribution [s0, s1, s2, s3] holdings (0 : Fin 4).val
            (![s0, s1, s2, s3] 0) +
          (stack_contribution [s0, s1, s2, s3] holdings (1 : Fin 4).val
            (![s0, s1, s2, s3] 1) +
          (stack_contribution [s0, s1, s2, s3] holdings (2 : Fin 4).val
            (![s0, s1, s2, s3] 2) +
          (stack_contribution [s0, s1, s2, s3] holdings (3 : Fin 4).val
            (![s0, s1, s2, s3] 3) + 0))) := rfl
      _ = spec_score ![s0, s1, s2, s3] holdings := by
          rw [e0, e1, e2, e3]
          unfold spec_score
          rw [Fin.sum_univ_four]
          omega
  · unfold game_winner
    split_ifs <;> simp_all <;> omega
  · unfold game_winner
    split_ifs <;> simp_all <;> omega
  · unfold game_winner
    split_ifs <;> simp_all <;> omega

/-!  Field-preservation lemmas for move execution. -/

theorem withBoard_activeP (s : GameState) (b : List (List Chip)) :
    (GameState.activeP { s with board := b }) = s.activeP := rfl

theorem withBoard_inactiveP (s : GameState) (b : List (List Chip)) :
    (GameState.inactiveP { s with board := b }) = s.inactiveP := rfl

theorem inactiveP_setActiveP (s : GameState) (p : PState) :
    (s.setActiveP p).inactiveP = s.inactiveP := by
  unfold GameState.setActiveP GameState.inactiveP
  by_cases h : s.active = true <;> simp [h]

theorem activeP_setCheckedOf (s : GameState) (b : Bool) :
    (s.setCheckedOf b).activeP = s.activeP := by
  cases b <;> rfl

theorem inactiveP_setCheckedOf (s : GameState) (b : Bool) :
    (s.setCheckedOf b).inactiveP = s.inactiveP := by
  cases b <;> rfl

theorem chipsTotal_split (s : GameState) :
    chipsTotal s = playChips s.activeP + playChips s.inactiveP := by
  unfold chipsTotal playChips GameState.activeP GameState.inactiveP
  by_cases h : s.active = true <;> simp [h] <;> omega

theorem uncheckedCount_congr (s s' : GameState) (h0 : s'.checked0 = s.checked0)
    (h1 : s'.checked1 = s.checked1) : uncheckedCount s' = uncheckedCount s := by
  unfold uncheckedCount
  rw [h0, h1]

theorem uncheckedCount_setCheckedOf (s : GameState) (b : Bool)
    (h : s.checkedOf b = false) :
    uncheckedCount (s.setCheckedOf b) < uncheckedCount s := by
  cases b <;>
    simp_all [GameState.setCheckedOf, GameState.checkedOf, uncheckedCount] <;>
    omega

theorem pyAppendAt_length (board : List (List Chip)) (i : Int) (c : Chip)
    (b' : List (List Chip)) (h : pyAppendAt board i c = some b') :
    b'.length = board.length := by
  unfold pyAppendAt at h
  cases hidx : pyIdx board.length i with
  | none =>
    simp only [hidx] at h
    exact Option.noConfusion h
  | some n =>
    simp only [hidx, Option.some.injEq] at h
    rw [← h, listModify_length]

theorem place_chip_fields (s : GameState) (c : Chip) (pos : Int) (hidden : Bool)
    (s' : GameState) (h : place_chip s c pos hidden = .ok s') :
    s'.active = s.active ∧ s'.checked0 = s.checked0 ∧ s'.checked1 = s.checked1 ∧
    s'.finished = s.finished ∧ s'.board.length = s.board.length ∧
    s'.activeP.hand = s.activeP.hand.erase c ∧ s'.activeP.deck = s.activeP.deck ∧
    s'.inactiveP = s.inactiveP ∧ c ∈ s.activeP.hand := by
  unfold place_chip at h
  by_cases hmem : c ∈ s.activeP.hand
  · rw [if_pos hmem] at h
    cases hpa : pyAppendAt
        (s.setActiveP { s.activeP with hand := s.activeP.hand.erase c }).board pos
        { c with is_hidden := hidden } with
    | none =>
      simp only [hpa] at h
      exact Except.noConfusion h
    | some b =>
      simp only [hpa, Except.ok.injEq] at h
      subst h
      have hblen := pyAppendAt_length _ _ _ _ hpa
      rw [setActiveP_board] at hblen
      refine ⟨?_, ?_, ?_, ?_, ?_, ?_, ?_, ?_, hmem⟩ <;>
        by_cases hax : s.active = true <;>
        simp [GameState.activeP, GameState.inactiveP, GameState.setActiveP,
          hax, hblen]
  · rw [if_neg hmem] at h
    simp at h

theorem drawer_followup_fields (dfu : GameState → Chip × Int) (s s' : GameState)
    (h : drawer_followup_exec dfu s = .ok s') :
    s'.active = s.active ∧ s'.checked0 = s.checked0 ∧ s'.checked1 = s.checked1 ∧
    s'.finished = s.finished := by
  unfold drawer_followup_exec at h
  cases hd : s.activeP.deck with
  | nil =>
    simp only [hd, Except.ok.injEq] at h
    subst h
    exact ⟨rfl, rfl, rfl, rfl⟩
  | cons d rest =>
    simp only [hd] at h
    split at h
    · split at h
      · simp only [Except.ok.injEq] at h
        subst h
        refine ⟨?_, ?_, ?_, ?_⟩ <;>
          simp [setActiveP_active, setActiveP_checked0, setActiveP_checked1,
            setActiveP_finished]
      · simp at h
    · simp at h

theorem execute_move_fields (mfu : GameState → Int × Int)
    (dfu : GameState → Chip × Int) (mv : Move) (s s' : GameState)
    (h : execute_move mfu dfu mv s = .ok s') :
    s'.active = s.active ∧ s'.finished = s.finished ∧
    (mv.move_type = .CHECK → s' = s.setCheckedOf s.active) ∧
    (mv.move_type ≠ .CHECK → s'.checked0 = s.checked0 ∧ s'.checked1 = s.checked1) := by
  unfold execute_move at h
  cases hmt : mv.move_type with
  | CHECK =>
    simp only [hmt, Except.ok.injEq] at h
    subst h
    refine ⟨setCheckedOf_active s s.active, setCheckedOf_finished s s.active,
      fun _ => rfl, fun hne => absurd rfl hne⟩
  | DISCARD =>
    simp only [hmt] at h
    cases hc : mv.chip with
    | none =>
      simp only [hc] at h
      exact Except.noConfusion h
    | some c =>
      simp only [hc] at h
      split at h
      · simp only [Except.ok.injEq] at h
        subst h
        exact ⟨setActiveP_active _ _, setActiveP_finished _ _,
          fun hck => MoveType.noConfusion hck,
          fun _ => ⟨setActiveP_checked0 _ _, setActiveP_checked1 _ _⟩⟩
      · exact Except.noConfusion h
  | PLAY_FACE_DOWN =>
    simp only [hmt] at h
    cases hc : mv.chip with
    | none =>
      simp only [hc] at h
      exact Except.noConfusion h
    | some c =>
      simp only [hc] at h
      obtain ⟨ha, h0, h1, hf, _, _, _, _, _⟩ := place_chip_fields _ _ _ _ _ h
      exact ⟨ha, hf,
        fun hck => MoveType.noConfusion hck,
        fun _ => ⟨h0, h1⟩⟩
  | PLAY_FACE_UP =>
    simp only [hmt] at h
    cases hc : mv.chip with
    | none =>
      simp only [hc] at h
      exact Except.noConfusion h
    | some c =>
      simp only [hc] at h
      cases hp : place_chip s c mv.target_pos false with
      | error e =>
        simp only [hp] at h
        exact Except.noConfusion h
      | ok s₁ =>
        simp only [hp] at h
        obtain ⟨ha, h0, h1, hf, _, _, _, _, _⟩ := place_chip_fields _ _ _ _ _ hp
        have goal_of : s'.active = s₁.active → s'.finished = s₁.finished →
            s'.checked0 = s₁.checked0 → s'.checked1 = s₁.checked1 →
            s'.active = s.active ∧ s'.finished = s.finished ∧
            (MoveType.PLAY_FACE_UP = MoveType.CHECK → s' = s.setCheckedOf s.active) ∧
            (MoveType.PLAY_FACE_UP ≠ MoveType.CHECK →
              s'.checked0 = s.checked0 ∧ s'.checked1 = s.checked1) := by
          intro e1 e2 e3 e4
          exact ⟨e1.trans ha, e2.trans hf,
            fun hck => MoveType.noConfusion hck,
            fun _ => ⟨e3.trans h0, e4.trans h1⟩⟩
        cases hk : c.kind with
        | mover =>
          simp only [hk] at h
          cases hm : mover_followup_exec s₁.board (mfu s₁).1 (mfu s₁).2 with
          | error e =>
            simp only [hm] at h
            exact Except.noConfusion h
          | ok board₁ =>
            simp only [hm, Except.ok.injEq] at h
            subst h
            exact goal_of rfl rfl rfl rfl
        | drawer =>
          simp only [hk] at h
          obtain ⟨e1, e2, e3, e4⟩ := drawer_followup_fields _ _ _ h
          exact goal_of e1 e4 e2 e3
        | stacker =>
          simp only [hk, Except.ok.injEq] at h
          subst h
          exact goal_of rfl rfl rfl rfl
        | binder =>
          simp only [hk, Except.ok.injEq] at h
          subst h
          exact goal_of rfl rfl rfl rfl

/-!  Step-level facts for the turn loop. -/

theorem checkedOf_pair (s : GameState) (b : Bool) :
    (s.checked0 && s.checked1) = (s.checkedOf b && s.checkedOf (!b)) := by
  cases b <;> simp [GameState.checkedOf] <;> rw [Bool.and_comm]

theorem checkedOf_congr_flags (s₁ s : GameState) (h0 : s₁.checked0 = s.checked0)
    (h1 : s₁.checked1 = s.checked1) (p : Bool) : s₁.checkedOf p = s.checkedOf p := by
  cases p <;> simp [GameState.checkedOf, h0, h1]

theorem execute_move_checked_mono (mfu : GameState → Int × Int)
    (dfu : GameState → Chip × Int) (mv : Move) (s s' : GameState)
    (h : execute_move mfu dfu mv s = .ok s') (p : Bool)
    (hp : s.checkedOf p = true) : s'.checkedOf p = true := by
  obtain ⟨ha, hf, hck, hnck⟩ := execute_move_fields _ _ _ _ _ h
  by_cases hmt : mv.move_type = .CHECK
  · rw [hck hmt, checkedOf_setCheckedOf]
    split <;> simp [hp]
  · obtain ⟨h0, h1⟩ := hnck hmt
    rw [checkedOf_congr_flags s' s h0 h1 p]
    exact hp

theorem step_fields (strat : Strategy) (s u : GameState)
    (hnf : s.finished = false) (h : step strat s = .ok u) :
    (u.finished = (u.checked0 && u.checked1))
    ∧ (∀ p, s.checkedOf p = true → u.checkedOf p = true)
    ∧ (u.finished = false →
        u.active = (if u.checkedOf (!s.active) then s.active else !s.active))
    ∧ (s.checkedOf s.active = false → u.finished = false →
        u.checkedOf u.active = false) := by
  unfold step at h
  cases hpt : play_turn strat s with
  | error e =>
    simp only [hpt] at h
    exact Except.noConfusion h
  | ok s₁ =>
    simp only [hpt] at h
    have hF : s₁.active = s.active ∧ s₁.finished = false ∧
        (∀ p, s.checkedOf p = true → s₁.checkedOf p = true) ∧
        (s.checkedOf s.active = false →
          (s₁ = s.setCheckedOf s.active ∨
            (s₁.checked0 = s.checked0 ∧ s₁.checked1 = s.checked1))) := by
      unfold play_turn at hpt
      by_cases hca : s.checkedOf s.active = true
      · rw [if_pos hca] at hpt
        simp only [Except.ok.injEq] at hpt
        subst hpt
        exact ⟨rfl, hnf, fun _ hp => hp, fun hinv => absurd hca (by simp [hinv])⟩
      · rw [if_neg hca] at hpt
        obtain ⟨ha, hf, hck, hnck⟩ := execute_move_fields _ _ _ _ _ hpt
        refine ⟨ha, hf.trans hnf,
          fun p hp => execute_move_checked_mono _ _ _ _ _ hpt p hp, fun _ => ?_⟩
        by_cases hmt : (strat.get_move s).move_type = .CHECK
        · exact Or.inl (hck hmt)
        · exact Or.inr (hnck hmt)
    obtain ⟨F1, F2, F3, F4⟩ := hF
    by_cases hb : (s₁.checked0 && s₁.checked1) = true
    · rw [if_pos hb] at h
      simp only [Except.ok.injEq] at h
      subst h
      refine ⟨hb.symm, F3, ?_, ?_⟩
      · intro hfin
        simp at hfin
      · intro _ hfin
        simp at hfin
    · rw [if_neg hb] at h
      have hbf : (s₁.checked0 && s₁.checked1) = false := by
        simpa using hb
      by_cases hstay : s₁.checkedOf (!s₁.active) = true
      · rw [if_pos hstay] at h
        simp only [Except.ok.injEq] at h
        subst h
        refine ⟨by rw [F2, hbf], F3, ?_, ?_⟩
        · intro _
          rw [F1] at hstay
          rw [hstay, F1]
          simp
        · intro hinv _
          rcases F4 hinv with hCK | ⟨h0, h1⟩
          · exfalso
            rw [F1] at hstay
            have hone : s₁.checkedOf s.active = true := by
              rw [hCK, checkedOf_setCheckedOf]
              simp
            rw [checkedOf_pair s₁ s.active, hone, hstay] at hbf
            simp at hbf
          · rw [F1, checkedOf_congr_flags s₁ s h0 h1 s.active]
            exact hinv
      · rw [if_neg hstay] at h
        simp only [Except.ok.injEq] at h
        subst h
        have hstayf : s₁.checkedOf (!s₁.active) = false := by
          simpa using hstay
        refine ⟨by rw [F2, hbf], F3, ?_, ?_⟩
        · intro _
          show (!s₁.active) =
            if s₁.checkedOf (!s.active) = true then s.active else !s.active
          rw [F1] at hstayf
          rw [hstayf, F1]
          simp
        · intro _ _
          show s₁.checkedOf (!s₁.active) = false
          simpa using hstay

theorem reaches_trans (strat : Strategy) {a b c : GameState}
    (h1 : ReachesFrom strat a b) (h2 : ReachesFrom strat b c) :
    ReachesFrom strat a c := by
  induction h2 with
  | refl => exact h1
  | tail _ hnf hstep ih => exact .tail ih hnf hstep

theorem reaches_checked_mono (strat : Strategy) {u t : GameState}
    (hr : ReachesFrom strat u t) (p : Bool) (hp : u.checkedOf p = true) :
    t.checkedOf p = true := by
  induction hr with
  | refl => exact hp
  | tail _ hnf hstep ih => exact (step_fields _ _ _ hnf hstep).2.1 p ih

theorem reaches_active_unchecked (strat : Strategy) {s₀ t : GameState}
    (hc0 : s₀.checked0 = false) (hc1 : s₀.checked1 = false)
    (hr : ReachesFrom strat s₀ t) :
    t.finished = false → t.checkedOf t.active = false := by
  induction hr with
  | refl =>
    intro _
    by_cases ha : s₀.active = true <;> simp [GameState.checkedOf, ha, hc0, hc1]
  | tail _ hnf hstep ih =>
    intro hfin
    exact (step_fields _ _ _ hnf hstep).2.2.2 (ih hnf) hfin

/-- C6: within one game run, a player whose checked flag is set is never
the active (asked) player again; after each step the active player switches
to the other exactly when the other has not checked, and the game is
Finished exactly when both flags are true. -/
theorem C6_turn_alternation (strat : Strategy) (s₀ u t : GameState)
    (hc0 : s₀.checked0 = false) (hc1 : s₀.checked1 = false)
    (hr1 : ReachesFrom strat s₀ u) (hr2 : ReachesFrom strat u t) :
    (t.finished = false → t.checkedOf t.active = false)
    ∧ (∀ p, u.checkedOf p = true → t.checkedOf p = true)
    ∧ (t.finished = false → ∀ p, u.checkedOf p = true → p ≠ t.active)
    ∧ (∀ v, t.finished = false → step strat t = .ok v →
        v.finished = (v.checked0 && v.checked1)
        ∧ (v.finished = false →
            v.active = (if v.checkedOf (!t.active) then t.active else !t.active))) := by
  have hinv := reaches_active_unchecked strat hc0 hc1 (reaches_trans strat hr1 hr2)
  refine ⟨hinv, fun p hp => reaches_checked_mono strat hr2 p hp, ?_, ?_⟩
  · intro hfin p hp hpe
    have hpt := reaches_checked_mono strat hr2 p hp
    rw [hpe] at hpt
    rw [hinv hfin] at hpt
    exact Bool.noConfusion hpt
  · intro v hfin hstep
    obtain ⟨e1, _, e3, _⟩ := step_fields strat t v hfin hstep
    exact ⟨e1, e3⟩

/-- C6 witness: a concrete two-step run where player 0 checks first and is
never asked again. -/
theorem C6_turn_alternation_witness :
    GameState.checkedOf
      { board := [[], [], [], []],
        p0 := { hand := [], deck := [], holdings := [] },
        p1 := { hand := [], deck := [], holdings := [] },
        active := true, checked0 := true, checked1 := false,
        finished := false } true = false := by
  have h := C6_turn_alternation checkStrategy
    { board := [[], [], [], []],
      p0 := { hand := [], deck := [], holdings := [] },
      p1 := { hand := [], deck := [], holdings := [] },
      active := false, checked0 := false, checked1 := false, finished := false }
    { board := [[], [], [], []],
      p0 := { hand := [], deck := [], holdings := [] },
      p1 := { hand := [], deck := [], holdings := [] },
      active := false, checked0 := false, checked1 := false, finished := false }
    { board := [[], [], [], []],
      p0 := { hand := [], deck := [], holdings := [] },
      p1 := { hand := [], deck := [], holdings := [] },
      active := true, checked0 := true, checked1 := false, finished := false }
    rfl rfl (.refl _) (.tail (.refl _) rfl (by rfl))
  exact h.1 rfl

/-!  Success lemmas under the strategy contracts (for termination). -/

theorem mover_exec_ok (board : List (List Chip)) (src dst : Int)
    (hfu : 0 ≤ src ∧ src < 4 ∧ 0 ≤ dst ∧ dst < 4 ∧
      board.getD src.toNat [] ≠ [] ∧ dst.toNat ∈ neighbors_map src.toNat) :
    ∃ board', mover_followup_exec board src dst = .ok board'
      ∧ board'.length = board.length := by
  obtain ⟨h1, h2, h3, h4, h5, h6⟩ := hfu
  cases hg : board.getD src.toNat [] with
  | nil => exact absurd hg h5
  | cons top rest =>
    refine ⟨listModify (fun st => top :: st) dst.toNat
      (listModify (fun _ => rest) src.toNat board), ?_, ?_⟩
    · unfold mover_followup_exec
      rw [if_pos ⟨h1, h2, h3, h4, h5⟩, if_pos h6, hg]
    · rw [listModify_length, listModify_length]

theorem drawer_exec_eq (dfu : GameState → Chip × Int) (t : GameState)
    (d : Chip) (rest : List Chip)
    (hd : t.activeP.deck = d :: rest)
    (hmem : (dfu (t.setActiveP
        { t.activeP with hand := t.activeP.hand ++ [d], deck := rest })).1 ∈
      t.activeP.hand ++ [d])
    (h0 : 0 ≤ (dfu (t.setActiveP
        { t.activeP with hand := t.activeP.hand ++ [d], deck := rest })).2)
    (h4 : (dfu (t.setActiveP
        { t.activeP with hand := t.activeP.hand ++ [d], deck := rest })).2 < 4)
    (hlen : t.board.length = 4) :
    drawer_followup_exec dfu t =
      .ok { (t.setActiveP
              { t.activeP with hand := t.activeP.hand ++ [d], deck := rest }).setActiveP
              { t.activeP with
                hand := (t.activeP.hand ++ [d]).erase
                  (dfu (t.setActiveP
                    { t.activeP with hand := t.activeP.hand ++ [d], deck := rest })).1,
                deck := rest } with
            board := listModify
              (fun st => { (dfu (t.setActiveP
                  { t.activeP with hand := t.activeP.hand ++ [d], deck := rest })).1
                  with is_hidden := true } :: st)
              (dfu (t.setActiveP
                { t.activeP with hand := t.activeP.hand ++ [d], deck := rest })).2.toNat
              t.board } := by
  simp only [drawer_followup_exec, hd, activeP_setActiveP, setActiveP_board]
  rw [if_pos hmem]
  rw [pyAppendAt_nonneg _ _ _ h0 (by rw [hlen]; exact h4)]

theorem drawer_exec_ok (dfu : GameState → Chip × Int) (s : GameState)
    (hlen : s.board.length = 4)
    (hdc : ∀ t : GameState, t.activeP.hand ≠ [] → legal_drawer_fu t (dfu t)) :
    ∃ s', drawer_followup_exec dfu s = .ok s'
      ∧ s'.active = s.active ∧ s'.checked0 = s.checked0 ∧ s'.checked1 = s.checked1
      ∧ s'.finished = s.finished ∧ s'.board.length = 4
      ∧ playChips s'.activeP ≤ playChips s.activeP
      ∧ s'.inactiveP = s.inactiveP := by
  cases hd : s.activeP.deck with
  | nil =>
    refine ⟨s, ?_, rfl, rfl, rfl, rfl, hlen, le_refl _, rfl⟩
    simp only [drawer_followup_exec, hd]
  | cons d rest =>
    have hne : (s.setActiveP
        { s.activeP with hand := s.activeP.hand ++ [d], deck := rest }).activeP.hand
        ≠ [] := by
      rw [activeP_setActiveP]
      simp
    obtain ⟨hmem, h0, h4⟩ := hdc _ hne
    simp only [activeP_setActiveP] at hmem
    have heq := drawer_exec_eq dfu s d rest hd hmem h0 h4 hlen
    refine ⟨_, heq, ?_, ?_, ?_, ?_, ?_, ?_, ?_⟩
    · simp [setActiveP_active]
    · simp [setActiveP_checked0]
    · simp [setActiveP_checked1]
    · simp [setActiveP_finished]
    · simp [listModify_length, hlen]
    · have e1 := List.length_erase_of_mem hmem
      have e2 : s.activeP.deck.length = rest.length + 1 := by
        rw [hd]
        rfl
      simp only [withBoard_activeP, activeP_setActiveP, playChips]
      simp only [List.length_append, List.length_singleton] at e1
      simp only [e1]
      omega
    · simp [withBoard_inactiveP, inactiveP_setActiveP]

theorem place_chip_ok (s : GameState) (c : Chip) (pos : Int) (hidden : Bool)
    (hmem : c ∈ s.activeP.hand) (h0 : 0 ≤ pos) (h4 : pos < 4)
    (hlen : s.board.length = 4) :
    place_chip s c pos hidden =
      .ok { s.setActiveP { s.activeP with hand := s.activeP.hand.erase c } with
            board := listModify (fun st => { c with is_hidden := hidden } :: st)
              pos.toNat s.board } := by
  simp only [place_chip, if_pos hmem, setActiveP_board]
  rw [pyAppendAt_nonneg _ _ _ h0 (by rw [hlen]; exact h4)]

theorem execute_move_ok (strat : Strategy) (hc : ContractStrategy strat)
    (s : GameState) (hlen : s.board.length = 4) :
    ∃ s', execute_move strat.get_mover_followup strat.get_drawer_followup
        (strat.get_move s) s = .ok s'
      ∧ s'.board.length = 4
      ∧ ((strat.get_move s).move_type = .CHECK ∧ s' = s.setCheckedOf s.active
         ∨ (strat.get_move s).move_type ≠ .CHECK ∧ s'.checked0 = s.checked0
           ∧ s'.checked1 = s.checked1 ∧ s'.active = s.active
           ∧ s'.finished = s.finished
           ∧ playChips s'.activeP < playChips s.activeP
           ∧ s'.inactiveP = s.inactiveP) := by
  obtain ⟨hcm, hcmov, hcdr⟩ := hc
  have hmv := hcm s hlen
  unfold legal_move at hmv
  cases hmt : (strat.get_move s).move_type with
  | CHECK =>
    refine ⟨s.setCheckedOf s.active, by simp [execute_move, hmt], ?_, Or.inl ⟨rfl, rfl⟩⟩
    rw [setCheckedOf_board, hlen]
  | DISCARD =>
    rw [hmt] at hmv
    obtain ⟨c, hchip, hmem⟩ := hmv
    refine ⟨s.setActiveP { s.activeP with hand := s.activeP.hand.erase c },
      ?_, ?_, Or.inr ⟨fun hx => MoveType.noConfusion hx, setActiveP_checked0 _ _,
        setActiveP_checked1 _ _, setActiveP_active _ _, setActiveP_finished _ _,
        ?_, inactiveP_setActiveP _ _⟩⟩
    · simp only [execute_move, hmt, hchip]
      rw [if_pos hmem]
    · rw [setActiveP_board, hlen]
    · rw [activeP_setActiveP]
      have := List.length_erase_of_mem hmem
      have hpos : 0 < s.activeP.hand.length := List.length_pos_of_mem hmem
      simp only [playChips, this]
      omega
  | PLAY_FACE_DOWN =>
    rw [hmt] at hmv
    obtain ⟨⟨c, hchip, hmem⟩, hp0, hp4⟩ := hmv
    refine ⟨{ s.setActiveP { s.activeP with hand := s.activeP.hand.erase c } with
        board := listModify (fun st => { c with is_hidden := true } :: st)
          (strat.get_move s).target_pos.toNat s.board },
      ?_, ?_, Or.inr ⟨fun hx => MoveType.noConfusion hx,
        setActiveP_checked0 _ _, setActiveP_checked1 _ _, setActiveP_active _ _,
        setActiveP_finished _ _, ?_, inactiveP_setActiveP _ _⟩⟩
    · simp only [execute_move, hmt, hchip]
      exact place_chip_ok s c _ true hmem hp0 hp4 hlen
    · simp [listModify_length, hlen]
    · simp only [withBoard_activeP, activeP_setActiveP]
      have := List.length_erase_of_mem hmem
      have hpos : 0 < s.activeP.hand.length := List.length_pos_of_mem hmem
      simp only [playChips, this]
      omega
  | PLAY_FACE_UP =>
    rw [hmt] at hmv
    obtain ⟨⟨c, hchip, hmem⟩, hp0, hp4⟩ := hmv
    have key : ∀ s₁ : GameState,
        place_chip s c (strat.get_move s).target_pos false = .ok s₁ →
        s₁.board.length = 4 →
        s₁.checked0 = s.checked0 → s₁.checked1 = s.checked1 →
        s₁.active = s.active → s₁.finished = s.finished →
        playChips s₁.activeP < playChips s.activeP →
        s₁.inactiveP = s.inactiveP →
        (∃ i, i < 4 ∧ s₁.board.getD i [] ≠ []) →
        s₁.activeP.hand.length + 1 = s.activeP.hand.length →
        ∃ s', execute_move strat.get_mover_followup strat.get_drawer_followup
            (strat.get_move s) s = .ok s'
          ∧ s'.board.length = 4
          ∧ (MoveType.PLAY_FACE_UP = MoveType.CHECK ∧ s' = s.setCheckedOf s.active
             ∨ MoveType.PLAY_FACE_UP ≠ MoveType.CHECK ∧ s'.checked0 = s.checked0
               ∧ s'.checked1 = s.checked1 ∧ s'.active = s.active
               ∧ s'.finished = s.finished
               ∧ playChips s'.activeP < playChips s.activeP
               ∧ s'.inactiveP = s.inactiveP) := by
      intro s₁ hp hlen₁ e0 e1 e2 e3 hchips₁ e4 hne hhand
      cases hk : c.kind with
      | mover =>
        obtain ⟨f0, f1, f2, f3, f4, f5⟩ := hcmov s₁ hlen₁ hne
        obtain ⟨board', hmobo, hmlen⟩ :=
          mover_exec_ok s₁.board (strat.get_mover_followup s₁).1
            (strat.get_mover_followup s₁).2 ⟨f0, f1, f2, f3, f4, f5⟩
        refine ⟨{ s₁ with board := board' }, ?_, by rw [show ({ s₁ with board := board' } : GameState).board = board' from rfl, hmlen, hlen₁],
          Or.inr ⟨fun hx => MoveType.noConfusion hx,
            e0, e1, e2, e3, hchips₁, e4⟩⟩
        simp only [execute_move, hmt, hchip]
        rw [hp, hk]
        simp only [hmobo]
      | drawer =>
        obtain ⟨s', hres, g1, g2, g3, g4, g5, g6, g7⟩ :=
          drawer_exec_ok strat.get_drawer_followup s₁ hlen₁ hcdr
        refine ⟨s', ?_, g5,
          Or.inr ⟨fun hx => MoveType.noConfusion hx,
            g2.trans e0, g3.trans e1, g1.trans e2, g4.trans e3,
            lt_of_le_of_lt g6 hchips₁, g7.trans e4⟩⟩
        simp only [execute_move, hmt, hchip]
        rw [hp, hk]
        exact hres
      | stacker =>
        refine ⟨s₁, ?_, hlen₁,
          Or.inr ⟨fun hx => MoveType.noConfusion hx,
            e0, e1, e2, e3, hchips₁, e4⟩⟩
        simp only [execute_move, hmt, hchip]
        rw [hp, hk]
      | binder =>
        refine ⟨s₁, ?_, hlen₁,
          Or.inr ⟨fun hx => MoveType.noConfusion hx,
            e0, e1, e2, e3, hchips₁, e4⟩⟩
        simp only [execute_move, hmt, hchip]
        rw [hp, hk]
    have hplace := place_chip_ok s c (strat.get_move s).target_pos false hmem hp0 hp4 hlen
    obtain ⟨ha, h0, h1, hf, hblen, hhand, hdeck, hinact, _⟩ :=
      place_chip_fields _ _ _ _ _ hplace
    have hlt : (strat.get_move s).target_pos.toNat < 4 := by omega
    refine key _ hplace (by rw [hblen, hlen]) h0 h1 ha hf ?_ hinact ?_ ?_
    · have := List.length_erase_of_mem hmem
      have hpos : 0 < s.activeP.hand.length := List.length_pos_of_mem hmem
      simp only [playChips, hhand, hdeck, this]
      omega
    · refine ⟨(strat.get_move s).target_pos.toNat, hlt, ?_⟩
      show ({ s.setActiveP { s.activeP with hand := s.activeP.hand.erase c } with
        board := listModify (fun st => { c with is_hidden := false } :: st)
          (strat.get_move s).target_pos.toNat s.board } : GameState).board.getD
          (strat.get_move s).target_pos.toNat [] ≠ []
      rw [show ({ s.setActiveP { s.activeP with hand := s.activeP.hand.erase c } with
        board := listModify (fun st => { c with is_hidden := false } :: st)
          (strat.get_move s).target_pos.toNat s.board } : GameState).board =
          listModify (fun st => { c with is_hidden := false } :: st)
            (strat.get_move s).target_pos.toNat s.board from rfl]
      rw [getD_listModify_self _ _ _ _ (by rw [hlen]; exact hlt)]
      simp
    · have := List.length_erase_of_mem hmem
      have hpos : 0 < s.activeP.hand.length := List.length_pos_of_mem hmem
      rw [hhand, this]
      omega

theorem chipsTotal_setCheckedOf (s : GameState) (b : Bool) :
    chipsTotal (s.setCheckedOf b) = chipsTotal s := by
  cases b <;> rfl

theorem step_ok (strat : Strategy) (hc : ContractStrategy strat) (s : GameState)
    (hlen : s.board.length = 4) (hnf : s.finished = false)
    (hca : s.checkedOf s.active = false) :
    ∃ u, step strat s = .ok u ∧ u.board.length = 4
      ∧ (u.finished = false → u.checkedOf u.active = false)
      ∧ gameMeasure u < gameMeasure s := by
  obtain ⟨s₁, hexec, hlen₁, hdisj⟩ := execute_move_ok strat hc s hlen
  have hpt : play_turn strat s = .ok s₁ := by
    unfold play_turn
    rw [if_neg (by simp [hca])]
    exact hexec
  have hmeas₁ : gameMeasure s₁ < gameMeasure s := by
    rcases hdisj with ⟨hmt, hs₁eq⟩ | ⟨hmt, h0, h1, hact, hfin, hchips, hinact⟩
    · rw [hs₁eq]
      unfold gameMeasure
      rw [chipsTotal_setCheckedOf]
      have := uncheckedCount_setCheckedOf s s.active hca
      omega
    · unfold gameMeasure
      rw [chipsTotal_split s₁, chipsTotal_split s, hinact,
        uncheckedCount_congr s s₁ h0 h1]
      omega
  by_cases hb : (s₁.checked0 && s₁.checked1) = true
  · have hstep : step strat s = .ok { s₁ with finished := true } := by
      unfold step
      simp only [hpt]
      rw [if_pos hb]
    refine ⟨{ s₁ with finished := true }, hstep, hlen₁, ?_, hmeas₁⟩
    intro hfin
    simp at hfin
  · by_cases hstay : s₁.checkedOf (!s₁.active) = true
    · have hstep : step strat s = .ok s₁ := by
        unfold step
        simp only [hpt]
        rw [if_neg hb, if_pos hstay]
      exact ⟨s₁, hstep, hlen₁,
        (step_fields strat s s₁ hnf hstep).2.2.2 hca, hmeas₁⟩
    · have hstep : step strat s = .ok { s₁ with active := !s₁.active } := by
        unfold step
        simp only [hpt]
        rw [if_neg hb, if_neg hstay]
      exact ⟨{ s₁ with active := !s₁.active }, hstep, hlen₁,
        (step_fields strat s _ hnf hstep).2.2.2 hca, hmeas₁⟩

theorem run_game_ok (strat : Strategy) (hc : ContractStrategy strat) :
    ∀ (n : Nat) (s : GameState), s.board.length = 4 →
      (s.finished = false → s.checkedOf s.active = false) →
      gameMeasure s < n →
      ∃ s', run_game strat n s = .ok (some s') := by
  intro n
  induction n with
  | zero =>
    intro s _ _ hm
    omega
  | succ n ih =>
    intro s hlen hinv hm
    by_cases hf : s.finished = true
    · refine ⟨s, ?_⟩
      simp only [run_game]
      rw [if_pos hf]
    · have hnf : s.finished = false := by simpa using hf
      obtain ⟨u, hstep, hulen, huinv, humeas⟩ :=
        step_ok strat hc s hlen hnf (hinv hnf)
      obtain ⟨s', hrun⟩ := ih u hulen huinv (by omega)
      refine ⟨s', ?_⟩
      simp only [run_game]
      rw [if_neg hf]
      simp only [hstep]
      exact hrun

theorem checkStrategy_contract : ContractStrategy checkStrategy := by
  refine ⟨?_, ?_, ?_⟩
  · intro s _
    exact trivial
  · intro s hlen hex
    obtain ⟨i, hi4, hne⟩ := hex
    have hsome : ((List.range 4).find?
        (fun j => !(s.board.getD j []).isEmpty)).isSome = true := by
      rw [List.find?_isSome]
      refine ⟨i, List.mem_range.mpr hi4, ?_⟩
      show (!(s.board.getD i []).isEmpty) = true
      cases hcase : s.board.getD i [] with
      | nil => exact absurd hcase hne
      | cons x xs => rfl
    obtain ⟨j, hj⟩ := Option.isSome_iff_exists.mp hsome
    have hpj := List.find?_some hj
    have hj4 : j < 4 := List.mem_range.mp (List.mem_of_find?_eq_some hj)
    have hjne : s.board.getD j [] ≠ [] := by
      simpa [List.isEmpty_iff] using hpj
    show legal_mover_fu s (checkStrategy.get_mover_followup s)
    unfold checkStrategy
    simp only []
    rw [hj]
    show legal_mover_fu s ((j : Int), ((neighbors_map j).headD 0 : Int))
    show 0 ≤ (j : Int) ∧ (j : Int) < 4 ∧
      0 ≤ ((neighbors_map j).headD 0 : Int) ∧
      ((neighbors_map j).headD 0 : Int) < 4 ∧
      s.board.getD (j : Int).toNat [] ≠ [] ∧
      ((neighbors_map j).headD 0 : Int).toNat ∈ neighbors_map (j : Int).toNat
    refine ⟨Int.natCast_nonneg j, by exact_mod_cast hj4, ?_, ?_, ?_, ?_⟩
    · interval_cases j <;> decide
    · interval_cases j <;> decide
    · simpa [Int.toNat_natCast] using hjne
    · interval_cases j <;> decide
  · intro s hne
    cases hh : s.activeP.hand with
    | nil => exact absurd hh hne
    | cons a rest =>
      show legal_drawer_fu s (checkStrategy.get_drawer_followup s)
      unfold checkStrategy legal_drawer_fu
      simp only []
      refine ⟨?_, by norm_num, by norm_num⟩
      rw [hh]
      simp

/-- C10: with contract-abiding strategies the game loop terminates within
gameMeasure-many iterations (each non-Check move strictly shrinks the
acting player's hand+deck, each Check shrinks the unchecked count); a
player with an empty hand can only legally Check. -/
theorem C10_run_game_terminates (strat : Strategy) (s : GameState)
    (hc : ContractStrategy strat)
    (hlen : s.board.length = 4)
    (hc0 : s.checked0 = false) (hc1 : s.checked1 = false) :
    finishedOk (run_game strat (gameMeasure s + 1) s) = true
    ∧ (∀ (t : GameState) (mv : Move), legal_move t mv → t.activeP.hand = [] →
        mv.move_type = .CHECK)
    ∧ (∀ t t' : GameState, t.board.length = 4 →
        (strat.get_move t).move_type ≠ .CHECK →
        execute_move strat.get_mover_followup strat.get_drawer_followup
          (strat.get_move t) t = .ok t' →
        playChips t'.activeP < playChips t.activeP) := by
  refine ⟨?_, ?_, ?_⟩
  · have hinv : s.finished = false → s.checkedOf s.active = false := by
      intro _
      by_cases ha : s.active = true <;> simp [GameState.checkedOf, ha, hc0, hc1]
    obtain ⟨s', hrun⟩ := run_game_ok strat hc (gameMeasure s + 1) s hlen hinv (by omega)
    rw [hrun]
    rfl
  · intro t mv hlegal hhand
    cases hmt : mv.move_type with
    | CHECK => rfl
    | DISCARD =>
      unfold legal_move at hlegal
      rw [hmt] at hlegal
      obtain ⟨c, _, hcm⟩ := hlegal
      rw [hhand] at hcm
      exact absurd hcm (List.not_mem_nil c)
    | PLAY_FACE_DOWN =>
      unfold legal_move at hlegal
      rw [hmt] at hlegal
      obtain ⟨⟨c, _, hcm⟩, _, _⟩ := hlegal
      rw [hhand] at hcm
      exact absurd hcm (List.not_mem_nil c)
    | PLAY_FACE_UP =>
      unfold legal_move at hlegal
      rw [hmt] at hlegal
      obtain ⟨⟨c, _, hcm⟩, _, _⟩ := hlegal
      rw [hhand] at hcm
      exact absurd hcm (List.not_mem_nil c)
  · intro t t' htlen hmt hexec
    obtain ⟨s₁, hex, _, hdisj⟩ := execute_move_ok strat hc t htlen
    rw [hex] at hexec
    injection hexec with he
    subst he
    rcases hdisj with ⟨hck, _⟩ | ⟨_, _, _, _, _, hchips, _⟩
    · exact absurd hck hmt
    · exact hchips

/-- C10 witness: the always-check strategy finishes a fresh empty game
within its measure bound. -/
theorem C10_run_game_terminates_witness :
    finishedOk (run_game checkStrategy 3
      { board := [[], [], [], []],
        p0 := { hand := [], deck := [], holdings := [] },
        p1 := { hand := [], deck := [], holdings := [] },
        active := false, checked0 := false, checked1 := false,
        finished := false }) = true := by
  have h := C10_run_game_terminates checkStrategy
    { board := [[], [], [], []],
      p0 := { hand := [], deck := [], holdings := [] },
      p1 := { hand := [], deck := [], holdings := [] },
      active := false, checked0 := false, checked1 := false,
      finished := false }
    checkStrategy_contract rfl rfl rfl
  exact h.1
